import Mathlib

/-!
Verification of the consensus test-harness utilities declared in
`src/kudu/integration-tests/cluster_itest_util.h` and the object pool in
`src/util/auto_release_pool.h`.

The repository ships only the header of `cluster_itest_util`; the function
bodies live elsewhere.  Each harness operation is therefore modelled from
the header's documented contract together with the specification, as a
pure function over explicit replica-state observations.  Timeout-bounded
polling is embedded as a fuel-indexed loop over an observation sequence
`obs : Nat → σ`, where `obs k` is the cluster state seen by the k-th
polling attempt and the fuel is the number of attempts that fit before the
deadline.  `AutoReleasePool` is embedded directly from its inline source.
-/

namespace Kudu

/-- A position in a replica's replicated log: the OpId pair (term, index). -/
structure LogPosition where
  term : Nat
  index : Nat
  deriving DecidableEq, Repr

/-- Errors a single-replica probe can surface: the node did not respond
within the timeout, or it responded but does not host the queried tablet. -/
inductive ProbeError where
  | Unreachable
  | NotFound
  deriving DecidableEq, Repr

/-- The observable state of one replica at one probing instant: whether it
responds within the RPC timeout, whether it hosts the queried tablet, and
the last position written to its log. -/
structure ReplicaState where
  reachable : Bool
  hostsTablet : Bool
  lastPos : LogPosition
  deriving DecidableEq, Repr

/-- Modelled from the spec: `GetLastOpIdForReplica` (the implementation body
is not in src/, only its declaration).  Single RPC probe; fails with
`Unreachable` if the node does not respond within the timeout, `NotFound`
if the replica does not host the tablet, and otherwise returns the last
log position. -/
def getLastLogPosition (r : ReplicaState) : Except ProbeError LogPosition :=
  if r.reachable = false then .error .Unreachable
  else if r.hostsTablet = false then .error .NotFound
  else .ok r.lastPos

/-- Modelled from the spec: `GetLastOpIdForEachReplica` (implementation body
not in src/).  Fans out `getLastLogPosition` to every replica; per the
header, returns a bad status if any replica cannot be probed — fail-fast,
no partial result. -/
def getLastLogPositionForEach : List ReplicaState → Except ProbeError (List LogPosition)
  | [] => .ok []
  | r :: rs =>
    match getLastLogPosition r with
    | .error e => .error e
    | .ok p =>
      match getLastLogPositionForEach rs with
      | .error e => .error e
      | .ok ps => .ok (p :: ps)

/-- Outcome of a deadline-bounded wait. -/
inductive WaitResult where
  | Success
  | TimedOut
  deriving DecidableEq, Repr

/-- Generic retry-until-predicate loop: attempt `k` checks `good k`; on
success return immediately, otherwise retry until the fuel (the number of
attempts that fit before the deadline) is exhausted, then time out. -/
def pollAux (good : Nat → Bool) : Nat → Nat → WaitResult
  | _, 0 => .TimedOut
  | k, n + 1 => if good k then .Success else pollAux good (k + 1) n

/-- Run the polling loop from the first attempt. -/
def poll (good : Nat → Bool) (attempts : Nat) : WaitResult :=
  pollAux good 0 attempts

/-- One agreement check over the positions returned by a fan-out probe:
all reported indexes equal the first one, and that index is at least the
required minimum.  (Per the header of `WaitForServersToAgree`, servers
converge on the same log index; an empty replica list is vacuously
converged.) -/
def indicesAgreeAtLeast (m : Nat) : List LogPosition → Bool
  | [] => true
  | p :: ps => (ps.all fun q => q.index == p.index) && decide (m ≤ p.index)

/-- One polling attempt of `waitForAgreement`: probe every replica; a probe
error means "not yet converged", otherwise check index agreement. -/
def agreementAttemptOk (m : Nat) (rs : List ReplicaState) : Bool :=
  match getLastLogPositionForEach rs with
  | .ok ps => indicesAgreeAtLeast m ps
  | .error _ => false

/-- Modelled from the spec: `WaitForServersToAgree` (implementation body not
in src/).  Per the header: wait until all of the servers have converged on
the same log index, at least `m`; per-attempt probe errors are treated as
"not yet converged"; returns `TimedOut` if the indexes do not converge
within the deadline. -/
def waitForAgreement (obs : Nat → List ReplicaState) (m : Nat) (attempts : Nat) : WaitResult :=
  poll (fun k => agreementAttemptOk m (obs k)) attempts

/-- One polling attempt of `waitForAllAtOrPast`: probe every replica; all
reported indexes must be at least `m` (no mutual agreement required). -/
def allAtOrPastAttemptOk (m : Nat) (rs : List ReplicaState) : Bool :=
  match getLastLogPositionForEach rs with
  | .ok ps => ps.all fun p => decide (m ≤ p.index)
  | .error _ => false

/-- Modelled from the spec: `WaitUntilAllReplicasHaveOp` (implementation
body not in src/).  Per the header: wait until all specified replicas have
logged at least the given index; the servers do not have to converge or
quiesce. -/
def waitForAllAtOrPast (obs : Nat → List ReplicaState) (m : Nat) (attempts : Nat) : WaitResult :=
  poll (fun k => allAtOrPastAttemptOk m (obs k)) attempts

/-- The consensus-related state of one replica at one probing instant:
whether its consensus state can be fetched at all (it is alive and
responds), whether it is part of the tablet's quorum, and whether it
believes itself leader. -/
structure ConsensusView where
  reachable : Bool
  isMember : Bool
  isLeader : Bool
  deriving DecidableEq, Repr

/-- Classification returned by `getLeaderStatus`. -/
inductive LeaderStatus where
  | Leader
  | NotLeader
  | NotFound
  deriving DecidableEq, Repr

/-- Modelled from the spec: `GetReplicaStatusAndCheckIfLeader`
(implementation body not in src/).  Per the header's contract: OK (Leader)
if the replica is alive and leader of the quorum; NotFound if the replica
is not part of the quorum or is dead; IllegalState (NotLeader) if the
replica is live but not the leader. -/
def getLeaderStatus (v : ConsensusView) : LeaderStatus :=
  if v.reachable = false then .NotFound
  else if v.isMember = false then .NotFound
  else if v.isLeader then .Leader
  else .NotLeader

/-- Modelled from the spec: `WaitUntilLeader` (implementation body not in
src/).  Polls `getLeaderStatus` until the replica is leader; any other
classification is treated as "not yet". -/
def waitForLeader (obs : Nat → ConsensusView) (attempts : Nat) : WaitResult :=
  poll (fun k => getLeaderStatus (obs k) == .Leader) attempts

/-- Committed consensus state as reported by one replica: the number of
voting members of the committed quorum. -/
structure ConsensusSnapshot where
  numVoters : Nat
  deriving DecidableEq, Repr

/-- One polling attempt of `waitForMembershipSize`: the snapshot probe must
succeed and report exactly the expected voter count. -/
def membershipAttemptOk (sz : Nat) (s : Except ProbeError ConsensusSnapshot) : Bool :=
  match s with
  | .ok snap => snap.numVoters == sz
  | .error _ => false

/-- Modelled from the spec: `WaitUntilCommittedQuorumNumVotersIs`
(implementation body not in src/).  Polls the committed consensus state
until the number of voters equals `sz`; per-attempt probe errors are
retried. -/
def waitForMembershipSize (obs : Nat → Except ProbeError ConsensusSnapshot) (sz : Nat)
    (attempts : Nat) : WaitResult :=
  poll (fun k => membershipAttemptOk sz (obs k)) attempts

/-- The state relevant to an election request: whether the target replica
acknowledges receipt of the RPC within the timeout, and whether the
requested election eventually elects a leader. -/
structure ElectionTarget where
  acksReceipt : Bool
  eventuallyElectsLeader : Bool
  deriving DecidableEq, Repr

/-- Modelled from the spec: `StartElection` (implementation body not in
src/).  Per the header: the timeout only refers to the RPC asking the peer
to start an election; the call does not block waiting for the results of
the election.  It succeeds exactly when the target acknowledges receipt. -/
def requestElection (t : ElectionTarget) : Except ProbeError Unit :=
  if t.acksReceipt then .ok () else .error .Unreachable

/-- An element tracked by an `AutoReleasePool`: either a singly allocated
object (freed with delete) or an array allocation (freed with delete[]).
Objects are identified by a natural number. -/
inductive GenericElement where
  | single (t : Nat)
  | array (t : Nat)
  deriving DecidableEq, Repr

/-- `AutoReleasePool` from `src/util/auto_release_pool.h`: a vector of
tracked elements, deleted at pool destruction. -/
structure AutoReleasePool where
  objects_ : List GenericElement
  deriving DecidableEq, Repr

/-- `AutoReleasePool::Add`: push a SpecificElement tracking `t`. -/
def AutoReleasePool.Add (p : AutoReleasePool) (t : Nat) : AutoReleasePool :=
  ⟨p.objects_ ++ [GenericElement.single t]⟩

/-- `AutoReleasePool::AddArray`: push a SpecificArrayElement tracking `t`. -/
def AutoReleasePool.AddArray (p : AutoReleasePool) (t : Nat) : AutoReleasePool :=
  ⟨p.objects_ ++ [GenericElement.array t]⟩

/-- `AutoReleasePool::DonateAllTo`: append all of this pool's elements to
the destination's vector and clear this pool.  Returns the updated
(source, destination) pair. -/
def AutoReleasePool.DonateAllTo (p dst : AutoReleasePool) : AutoReleasePool × AutoReleasePool :=
  (⟨[]⟩, ⟨dst.objects_ ++ p.objects_⟩)

/-- The sequence of delete actions performed by `~AutoReleasePool`: each
tracked element is deleted, in order. -/
def AutoReleasePool.destructorDeletes (p : AutoReleasePool) : List GenericElement :=
  p.objects_

/-- Observation sequence refuting C1 as literally stated: both replicas
report index 5, but in different terms. -/
def exC1Obs : Nat → List ReplicaState :=
  fun _ => [⟨true, true, ⟨1, 5⟩⟩, ⟨true, true, ⟨2, 5⟩⟩]

/-- A dead replica: unreachable, hence not a live member of any quorum. -/
def deadReplica : ConsensusView := ⟨false, false, false⟩

/-- Observation sequence for C4: both replicas past index 5, but at
different indexes (6 and 5), so they never agree. -/
def exC4Obs : Nat → List ReplicaState :=
  fun _ => [⟨true, true, ⟨1, 6⟩⟩, ⟨true, true, ⟨1, 5⟩⟩]

/-- Observation sequence for C5: one replica already past index 5. -/
def exC5Obs : Nat → List ReplicaState :=
  fun _ => [⟨true, true, ⟨1, 7⟩⟩]

/-- Observation sequence for C6: the only replica is unreachable, so every
fan-out probe fails. -/
def exC6Obs : Nat → List ReplicaState :=
  fun _ => [⟨false, true, ⟨0, 0⟩⟩]

/-- Consensus-view observations for C6. -/
def exC6View : Nat → ConsensusView :=
  fun _ => ⟨true, true, false⟩

/-- Snapshot observations for C6: the snapshot probe always errors. -/
def exC6Snap : Nat → Except ProbeError ConsensusSnapshot :=
  fun _ => .error .Unreachable

/-- A replica set whose first member is unreachable, for the C2 witness. -/
def exC2Replicas : List ReplicaState :=
  [⟨false, true, ⟨0, 0⟩⟩, ⟨true, true, ⟨1, 3⟩⟩]

theorem pollAux_success_iff (good : Nat → Bool) :
    ∀ n k, pollAux good k n = .Success ↔ ∃ j, k ≤ j ∧ j < k + n ∧ good j = true := by
  intro n
  induction n with
  | zero =>
    intro k
    constructor
    · intro h
      simp [pollAux] at h
    · rintro ⟨j, hkj, hjn, -⟩
      omega
  | succ n ih =>
    intro k
    by_cases hg : good k = true
    · constructor
      · intro _
        exact ⟨k, Nat.le_refl k, by omega, hg⟩
      · intro _
        simp [pollAux, hg]
    · constructor
      · intro h
        simp only [pollAux, hg, if_false, Bool.not_eq_true] at h
        rw [if_neg (by simp [Bool.not_eq_true] at hg; simp [hg])] at h
        rcases (ih (k + 1)).mp h with ⟨j, h1, h2, h3⟩
        exact ⟨j, by omega, by omega, h3⟩
      · rintro ⟨j, h1, h2, h3⟩
        rcases Nat.eq_or_lt_of_le h1 with rfl | hlt
        · exact absurd h3 hg
        · simp only [pollAux]
          rw [if_neg (by simp [Bool.not_eq_true] at hg; simp [hg])]
          exact (ih (k + 1)).mpr ⟨j, hlt, by omega, h3⟩

theorem poll_success_iff (good : Nat → Bool) (n : Nat) :
    poll good n = .Success ↔ ∃ k, k < n ∧ good k = true := by
  rw [poll, pollAux_success_iff]
  constructor
  · rintro ⟨j, -, h2, h3⟩
    exact ⟨j, by omega, h3⟩
  · rintro ⟨j, h2, h3⟩
    exact ⟨j, Nat.zero_le j, by omega, h3⟩

theorem waitResult_timedOut_iff (r : WaitResult) : r = .TimedOut ↔ ¬ r = .Success := by
  cases r <;> simp

theorem pollAux_shift (good : Nat → Bool) :
    ∀ n k, pollAux good (k + 1) n = pollAux (fun j => good (j + 1)) k n := by
  intro n
  induction n with
  | zero =>
    intro k
    rfl
  | succ n ih =>
    intro k
    simp only [pollAux, ih (k + 1)]

/-- Claim C9: the single-replica probe returns `Unreachable` exactly when
the node fails to respond within the timeout, and returns `NotFound`
exactly when the node responds but does not host the queried tablet; the
two failure kinds are never conflated. -/
theorem c9_getLastLogPosition_error_kinds :
    ∀ s : ReplicaState,
      (getLastLogPosition s = .error .Unreachable ↔ s.reachable = false) ∧
      (getLastLogPosition s = .error .NotFound ↔
        s.reachable = true ∧ s.hostsTablet = false) := by
  rintro ⟨r, h, p⟩
  cases r <;> cases h <;> simp [getLastLogPosition]

/-- Claim C8: `requestElection` succeeds exactly when the target replica
acknowledges receipt of the election request, and its result does not
depend on whether the election eventually elects a leader. -/
theorem c8_requestElection_fire_and_forget :
    ∀ a o o2 : Bool,
      (requestElection ⟨a, o⟩ = .ok () ↔ a = true) ∧
      requestElection ⟨a, o⟩ = requestElection ⟨a, o2⟩ := by
  intro a o o2
  cases a <;> simp [requestElection]

/-- Claim C3 counterexample: a dead (unreachable) replica does not yield a
distinct error — per the header of `GetReplicaStatusAndCheckIfLeader`, it
is classified `NotFound`, one of the three ordinary classifications. -/
theorem c3_dead_replica_classified_notFound :
    deadReplica.reachable = false ∧ getLeaderStatus deadReplica = .NotFound := by
  decide

/-- Claim C3 (amended): `getLeaderStatus` returns exactly one of Leader,
NotLeader, NotFound: Leader iff the replica responds, is a quorum member
and is leader; NotLeader iff it responds and is a member but not leader;
NotFound iff it is dead (unreachable) or not part of the quorum.  The
three classifications are mutually exclusive and exhaustive. -/
theorem c3_getLeaderStatus_total_classification :
    ∀ v : ConsensusView,
      (getLeaderStatus v = .Leader ↔
        v.reachable = true ∧ v.isMember = true ∧ v.isLeader = true) ∧
      (getLeaderStatus v = .NotLeader ↔
        v.reachable = true ∧ v.isMember = true ∧ v.isLeader = false) ∧
      (getLeaderStatus v = .NotFound ↔
        v.reachable = false ∨ v.isMember = false) := by
  rintro ⟨r, m, l⟩
  cases r <;> cases m <;> cases l <;> simp [getLeaderStatus]

/-- Claim C7: `waitForLeader` succeeds exactly when some attempt before the
deadline classifies the replica as Leader; any other classification at an
attempt (including NotFound) makes the loop continue with the remaining
attempts rather than return a failure. -/
theorem c7_waitForLeader_polls_until_leader :
    ∀ (obs : Nat → ConsensusView) (n : Nat),
      (waitForLeader obs n = .Success ↔
        ∃ k, k < n ∧ getLeaderStatus (obs k) = .Leader) ∧
      (waitForLeader obs (n + 1) =
        if getLeaderStatus (obs 0) = .Leader then .Success
        else waitForLeader (fun k => obs (k + 1)) n) := by
  intro obs n
  constructor
  · rw [waitForLeader, poll_success_iff]
    simp
  · by_cases h : getLeaderStatus (obs 0) = .Leader
    · simp only [waitForLeader, poll, pollAux, h, if_pos]
      simp [h]
    · rw [if_neg h]
      simp only [waitForLeader, poll, pollAux]
      rw [if_neg (by simp [h]), pollAux_shift]

/-- Claim C10: `DonateAllTo` appends every element tracked by the source
pool to the destination's vector, after the destination's existing
elements and in order, and clears the source; consequently every tracked
element is owned by exactly one pool and the combined destructor delete
sequences perform each deletion exactly as often as before the donation.
`Add` and `AddArray` each append exactly one tracking element. -/
theorem c10_donateAllTo_transfers_ownership :
    ∀ p d : AutoReleasePool,
      (p.DonateAllTo d).2.objects_ = d.objects_ ++ p.objects_ ∧
      (p.DonateAllTo d).1.objects_ = [] ∧
      (∀ e : GenericElement,
        ((p.DonateAllTo d).1.destructorDeletes ++
            (p.DonateAllTo d).2.destructorDeletes).count e =
          (p.destructorDeletes ++ d.destructorDeletes).count e) ∧
      (∀ t : Nat,
        (p.Add t).objects_ = p.objects_ ++ [GenericElement.single t] ∧
        (p.AddArray t).objects_ = p.objects_ ++ [GenericElement.array t]) := by
  intro p d
  refine ⟨rfl, rfl, ?_, fun t => ⟨rfl, rfl⟩⟩
  intro e
  simp [AutoReleasePool.DonateAllTo, AutoReleasePool.destructorDeletes,
    List.count_append, Nat.add_comm]

theorem agreementAttemptOk_eq_true_iff (m : Nat) (rs : List ReplicaState) :
    agreementAttemptOk m rs = true ↔
      ∃ ps, getLastLogPositionForEach rs = .ok ps ∧ indicesAgreeAtLeast m ps = true := by
  cases h : getLastLogPositionForEach rs with
  | error e => simp [agreementAttemptOk, h]
  | ok ps => simp [agreementAttemptOk, h]

theorem allAtOrPastAttemptOk_eq_true_iff (m : Nat) (rs : List ReplicaState) :
    allAtOrPastAttemptOk m rs = true ↔
      ∃ ps, getLastLogPositionForEach rs = .ok ps ∧ ∀ p ∈ ps, m ≤ p.index := by
  cases h : getLastLogPositionForEach rs with
  | error e => simp [allAtOrPastAttemptOk, h]
  | ok ps => simp [allAtOrPastAttemptOk, h, List.all_eq_true]

theorem getLastLogPositionForEach_ok_iff :
    ∀ (rs : List ReplicaState) (ps : List LogPosition),
      getLastLogPositionForEach rs = .ok ps ↔
        List.Forall₂ (fun r p => getLastLogPosition r = .ok p) rs ps := by
  intro rs
  induction rs with
  | nil =>
    intro ps
    cases ps <;> simp [getLastLogPositionForEach]
  | cons r rs ih =>
    intro ps
    cases hr : getLastLogPosition r with
    | error e =>
      simp only [getLastLogPositionForEach, hr]
      constructor
      · intro h
        exact absurd h (by simp)
      · intro h
        rcases ps with _ | ⟨p, ps⟩
        · exact absurd h (by simp)
        · rw [List.forall₂_cons] at h
          obtain ⟨h1, -⟩ := h
          rw [hr] at h1
          exact absurd h1 (by simp)
    | ok p0 =>
      cases hrs : getLastLogPositionForEach rs with
      | error e =>
        simp only [getLastLogPositionForEach, hr, hrs]
        constructor
        · intro h
          exact absurd h (by simp)
        · intro h
          rcases ps with _ | ⟨p, ps⟩
          · exact absurd h (by simp)
          · rw [List.forall₂_cons] at h
            have h2 := (ih ps).mpr h.2
            rw [hrs] at h2
            exact absurd h2 (by simp)
      | ok qs =>
        simp only [getLastLogPositionForEach, hr, hrs]
        constructor
        · intro h
          injection h with h
          subst h
          exact List.Forall₂.cons hr ((ih qs).mp hrs)
        · intro h
          rcases ps with _ | ⟨p, ps⟩
          · exact absurd h (by simp)
          · rw [List.forall₂_cons] at h
            obtain ⟨h1, h2⟩ := h
            rw [hr] at h1
            injection h1 with h1
            have h3 := (ih ps).mpr h2
            rw [hrs] at h3
            injection h3 with h3
            rw [h1, h3]

/-- Claim C2: the fan-out probe is fail-fast — if any replica's probe
fails, the whole operation returns one of the observed per-replica errors
and no partial result; it returns the list of positions exactly when every
replica's probe succeeds, pairing each replica with its reported
position. -/
theorem c2_forEach_fail_fast :
    ∀ rs : List ReplicaState,
      ((∃ r ∈ rs, ∃ e, getLastLogPosition r = .error e) →
        ∃ e2, getLastLogPositionForEach rs = .error e2 ∧
          ∃ r2 ∈ rs, getLastLogPosition r2 = .error e2) ∧
      (∀ ps, getLastLogPositionForEach rs = .ok ps ↔
        List.Forall₂ (fun r p => getLastLogPosition r = .ok p) rs ps) := by
  intro rs
  refine ⟨?_, fun ps => getLastLogPositionForEach_ok_iff rs ps⟩
  induction rs with
  | nil =>
    rintro ⟨r, hr, -⟩
    simp at hr
  | cons r rs ih =>
    rintro ⟨r2, hmem, e, he⟩
    cases hr : getLastLogPosition r with
    | error e0 =>
      refine ⟨e0, ?_, r, List.mem_cons_self r rs, hr⟩
      simp only [getLastLogPositionForEach, hr]
    | ok p =>
      have hr2 : r2 ∈ rs := by
        rcases List.mem_cons.mp hmem with rfl | h
        · rw [hr] at he
          exact absurd he (by simp)
        · exact h
      obtain ⟨e2, he2, r3, hr3, he3⟩ := ih ⟨r2, hr2, e, he⟩
      refine ⟨e2, ?_, r3, List.mem_cons_of_mem r hr3, he3⟩
      simp only [getLastLogPositionForEach, hr, he2]

theorem c2_witness : ∃ e2, getLastLogPositionForEach exC2Replicas = .error e2 ∧
    ∃ r2 ∈ exC2Replicas, getLastLogPosition r2 = .error e2 :=
  (c2_forEach_fail_fast exC2Replicas).1
    ⟨⟨false, true, ⟨0, 0⟩⟩, by simp [exC2Replicas], .Unreachable, rfl⟩

/-- Claim C1 counterexample: with both replicas reporting index 5 but in
different terms, `waitForAgreement` (which per its header converges on the
same log index) succeeds, although at no attempt do all replicas report
one identical log position — refuting "Success iff some attempt has every
replica at exactly one position p with index at least m". -/
theorem c1_counterexample_same_index_different_terms :
    waitForAgreement exC1Obs 0 1 = .Success ∧
    ¬ ∃ k, k < 1 ∧ ∃ p : LogPosition, 0 ≤ p.index ∧
        ∀ r ∈ exC1Obs k, getLastLogPosition r = .ok p := by
  refine ⟨rfl, ?_⟩
  rintro ⟨k, -, p, -, hall⟩
  have hA : (Except.ok (⟨1, 5⟩ : LogPosition) : Except ProbeError LogPosition) = .ok p :=
    hall ⟨true, true, ⟨1, 5⟩⟩ (by simp [exC1Obs])
  have hB : (Except.ok (⟨2, 5⟩ : LogPosition) : Except ProbeError LogPosition) = .ok p :=
    hall ⟨true, true, ⟨2, 5⟩⟩ (by simp [exC1Obs])
  injection hA with hA
  injection hB with hB
  rw [← hA] at hB
  exact absurd hB (by decide)

/-- Claim C1 (amended): `waitForAgreement` returns Success iff some polling
attempt before the deadline probes every replica successfully and all the
reported positions carry one common log index that is at least the
minimum; the terms need not match.  Otherwise it returns TimedOut. -/
theorem c1_agreement_success_iff_common_index :
    ∀ (obs : Nat → List ReplicaState) (m n : Nat),
      (waitForAgreement obs m n = .Success ↔
        ∃ k, k < n ∧ ∃ ps, getLastLogPositionForEach (obs k) = .ok ps ∧
          indicesAgreeAtLeast m ps = true) ∧
      (waitForAgreement obs m n = .TimedOut ↔
        ¬ ∃ k, k < n ∧ ∃ ps, getLastLogPositionForEach (obs k) = .ok ps ∧
          indicesAgreeAtLeast m ps = true) := by
  intro obs m n
  have h1 : waitForAgreement obs m n = .Success ↔
      ∃ k, k < n ∧ ∃ ps, getLastLogPositionForEach (obs k) = .ok ps ∧
        indicesAgreeAtLeast m ps = true := by
    rw [waitForAgreement, poll_success_iff]
    simp only [agreementAttemptOk_eq_true_iff]
  refine ⟨h1, ?_⟩
  rw [waitResult_timedOut_iff, h1]

/-- Claim C4: `waitForAllAtOrPast` succeeds exactly when some attempt
before the deadline probes every replica successfully and every reported
index is at least the minimum, with no requirement that the positions
match each other; and there is an observation sequence on which it
succeeds while `waitForAgreement` times out. -/
theorem c4_allAtOrPast_no_agreement_needed :
    (∀ (obs : Nat → List ReplicaState) (m n : Nat),
      waitForAllAtOrPast obs m n = .Success ↔
        ∃ k, k < n ∧ ∃ ps, getLastLogPositionForEach (obs k) = .ok ps ∧
          ∀ p ∈ ps, m ≤ p.index) ∧
    (∃ (obs : Nat → List ReplicaState) (m n : Nat),
      waitForAllAtOrPast obs m n = .Success ∧ waitForAgreement obs m n = .TimedOut) := by
  constructor
  · intro obs m n
    rw [waitForAllAtOrPast, poll_success_iff]
    simp only [allAtOrPastAttemptOk_eq_true_iff]
  · exact ⟨exC4Obs, 5, 1, rfl, rfl⟩

/-- Claim C5: `waitForAllAtOrPast` is monotonic in its deadline — if it
succeeds with fuel for n attempts, it succeeds with fuel for any larger
number of attempts over the same observations, and the succeeding attempt
already lies within the first n attempts (no additional polling needed). -/
theorem c5_allAtOrPast_deadline_monotonic :
    ∀ (obs : Nat → List ReplicaState) (m n n2 : Nat),
      n < n2 → waitForAllAtOrPast obs m n = .Success →
      waitForAllAtOrPast obs m n2 = .Success ∧
        ∃ k, k < n ∧ allAtOrPastAttemptOk m (obs k) = true := by
  intro obs m n n2 hlt hs
  rw [waitForAllAtOrPast, poll_success_iff] at hs
  obtain ⟨k, hk, hg⟩ := hs
  refine ⟨?_, k, hk, hg⟩
  rw [waitForAllAtOrPast, poll_success_iff]
  exact ⟨k, by omega, hg⟩

theorem c5_witness : waitForAllAtOrPast exC5Obs 5 2 = .Success ∧
    ∃ k, k < 1 ∧ allAtOrPastAttemptOk 5 (exC5Obs k) = true :=
  c5_allAtOrPast_deadline_monotonic exC5Obs 5 1 2 (by decide) (by decide)

/-- Claim C6: the polling operations never surface a per-attempt probe
error: with no attempts left they return TimedOut; the overall result is
always Success or TimedOut; and when the probe at the first attempt
errors, the loop with one more unit of fuel simply continues with the
remaining attempts over the shifted observation sequence. -/
theorem c6_polling_never_surfaces_probe_errors :
    ∀ (oA : Nat → List ReplicaState) (oC : Nat → ConsensusView)
      (oS : Nat → Except ProbeError ConsensusSnapshot) (m sz n : Nat),
      (waitForAgreement oA m 0 = .TimedOut ∧ waitForAllAtOrPast oA m 0 = .TimedOut ∧
        waitForMembershipSize oS sz 0 = .TimedOut ∧ waitForLeader oC 0 = .TimedOut) ∧
      (waitForAgreement oA m n = .Success ∨ waitForAgreement oA m n = .TimedOut) ∧
      ((∃ e, getLastLogPositionForEach (oA 0) = .error e) →
        waitForAgreement oA m (n + 1) = waitForAgreement (fun k => oA (k + 1)) m n ∧
        waitForAllAtOrPast oA m (n + 1) = waitForAllAtOrPast (fun k => oA (k + 1)) m n) ∧
      ((∃ e, oS 0 = .error e) →
        waitForMembershipSize oS sz (n + 1) =
          waitForMembershipSize (fun k => oS (k + 1)) sz n) := by
  intro oA oC oS m sz n
  refine ⟨⟨rfl, rfl, rfl, rfl⟩, ?_, ?_, ?_⟩
  · cases waitForAgreement oA m n with
    | Success => exact Or.inl rfl
    | TimedOut => exact Or.inr rfl
  · rintro ⟨e, he⟩
    have hA : agreementAttemptOk m (oA 0) = false := by
      simp [agreementAttemptOk, he]
    have hB : allAtOrPastAttemptOk m (oA 0) = false := by
      simp [allAtOrPastAttemptOk, he]
    constructor
    · simp only [waitForAgreement, poll, pollAux]
      rw [if_neg (by simp [hA])]
      exact pollAux_shift _ n 0
    · simp only [waitForAllAtOrPast, poll, pollAux]
      rw [if_neg (by simp [hB])]
      exact pollAux_shift _ n 0
  · rintro ⟨e, he⟩
    have hS : membershipAttemptOk sz (oS 0) = false := by
      simp [membershipAttemptOk, he]
    simp only [waitForMembershipSize, poll, pollAux]
    rw [if_neg (by simp [hS])]
    exact pollAux_shift _ n 0

theorem c6_witness :
    (∃ e, getLastLogPositionForEach (exC6Obs 0) = .error e) ∧
    (∃ e, exC6Snap 0 = .error e) ∧
    waitForAgreement exC6Obs 0 2 = waitForAgreement (fun k => exC6Obs (k + 1)) 0 1 ∧
    waitForAllAtOrPast exC6Obs 0 2 = waitForAllAtOrPast (fun k => exC6Obs (k + 1)) 0 1 ∧
    waitForMembershipSize exC6Snap 3 2 =
      waitForMembershipSize (fun k => exC6Snap (k + 1)) 3 1 := by
  refine ⟨⟨.Unreachable, rfl⟩, ⟨.Unreachable, rfl⟩, ?_, ?_, ?_⟩
  · exact ((c6_polling_never_surfaces_probe_errors exC6Obs exC6View exC6Snap 0 3 1).2.2.1
      ⟨.Unreachable, rfl⟩).1
  · exact ((c6_polling_never_surfaces_probe_errors exC6Obs exC6View exC6Snap 0 3 1).2.2.1
      ⟨.Unreachable, rfl⟩).2
  · exact (c6_polling_never_surfaces_probe_errors exC6Obs exC6View exC6Snap 0 3 1).2.2.2
      ⟨.Unreachable, rfl⟩
